import Mathlib

/-!
# Revenue-Integrity-Engine: a shallow embedding of the filter / flatten core

This file embeds, in Lean 4, the data model and the operations of the
repository's core components:

* the predicate filter engine `apply_filters` and the two segment filters
  `leakage_zombies` / `expiring_soon_contracts`
  (`src/filters/contract_filters.py`);
* the nested-field flatteners `extract_nested_fields`, `extract_from_dict`
  and `extract_nested_fields_n_level` (`src/data_extraction/loaders.py`);
* the pie-segment assembly `build_pie_segments`
  (`src/ai_chart_overview_generator/groq_overview_generator.py`).

Modelling conventions:

* A pandas cell value is a `Value`: null (None / NaN / NaT), booleans,
  numbers and normalized dates as integers, strings, lists and nested
  (dict-valued) objects.  Python's numeric `bool`/`int` cross-type coercion
  is not modelled; none of the code under verification relies on it.
* A `Row` is an association list from column name to `Value` (a Python dict
  in insertion order); a `Table` is a pandas `DataFrame`: an explicit column
  list plus an ordered list of rows.  The pandas row index is not modelled:
  rows are identified positionally, as the spec's "ordered sequence of Row".
* Exceptions (`KeyError` on a missing column, `ValueError` on an unsupported
  operator, `TypeError` on an unordered comparison) become the `Except`
  monad with a `FilterError` value.
-/

/-- A dynamic cell value: the JSON-like value universe of a CRM record.
`null` stands for Python `None` and for the pandas missing sentinels
(`NaN` / `NaT`); dates are normalized day numbers. -/
inductive Value where
  | null : Value
  | bool : Bool → Value
  | int : Int → Value
  | str : String → Value
  | list : List Value → Value
  | obj : List (String × Value) → Value
deriving Repr

mutual

/-- Structural (deep) equality of two values: Python `==` on the underlying
JSON-like data.  Written by hand because the nested inductive does not
support derived decidable equality. -/
def Value.beq : Value → Value → Bool
  | .null, .null => true
  | .bool a, .bool b => a == b
  | .int a, .int b => a == b
  | .str a, .str b => a == b
  | .list as, .list bs => Value.beqList as bs
  | .obj as, .obj bs => Value.beqObj as bs
  | _, _ => false

/-- Deep equality of two lists of values. -/
def Value.beqList : List Value → List Value → Bool
  | [], [] => true
  | a :: as, b :: bs => Value.beq a b && Value.beqList as bs
  | _, _ => false

/-- Deep equality of two dicts (as ordered key-value lists). -/
def Value.beqObj : List (String × Value) → List (String × Value) → Bool
  | [], [] => true
  | (k, a) :: as, (l, b) :: bs => k == l && Value.beq a b && Value.beqObj as bs
  | _, _ => false

end

/-- A row: a Python dict from column name to value, in insertion order. -/
abbrev Row := List (String × Value)

/-- A DataFrame: the ordered column list and the ordered rows. -/
structure Table where
  cols : List String
  rows : List Row
deriving Repr

/-- `row[c]` as a cell read: a column a row does not bind is the missing
sentinel (pandas shows `NaN` in a sparse column). -/
def getVal (r : Row) (c : String) : Value :=
  match r.lookup c with
  | some v => v
  | none => Value.null

/-- The pandas missingness test (`isna`) on one cell. -/
def Value.isNull : Value → Bool
  | .null => true
  | _ => false

/-- Errors of the filter engine: `ValueError("Unsupported operator: …")`,
`KeyError` from `df[column]` on an absent column, and `TypeError` from an
unordered comparison. -/
inductive FilterError where
  | unsupportedOperator : String → FilterError
  | columnNotFound : String → FilterError
  | typeError : FilterError
deriving Repr, DecidableEq

/-- Elementwise `==` of a pandas object column against a scalar: the missing
sentinel equals nothing (`NaN == x` is `False`), otherwise values of equal
shape compare structurally and mismatched types are simply unequal. -/
def valEq (v w : Value) : Bool :=
  match v, w with
  | .null, _ => false
  | _, .null => false
  | v, w => Value.beq v w

/-- Elementwise `<=`: missing compares `False`; numbers, strings and
booleans compare within their own type; mixed types raise `TypeError`. -/
def valLe (v w : Value) : Except FilterError Bool :=
  match v, w with
  | .null, _ => .ok false
  | _, .null => .ok false
  | .int a, .int b => .ok (decide (a ≤ b))
  | .str a, .str b => .ok (decide (a ≤ b))
  | .bool a, .bool b => .ok (!a || b)
  | _, _ => .error .typeError

/-- Elementwise `<` with the same typing rules as `valLe`. -/
def valLt (v w : Value) : Except FilterError Bool :=
  match v, w with
  | .null, _ => .ok false
  | _, .null => .ok false
  | .int a, .int b => .ok (decide (a < b))
  | .str a, .str b => .ok (decide (a < b))
  | .bool a, .bool b => .ok (!a && b)
  | _, _ => .error .typeError

/-- Elementwise `isin`: membership in the operand list, where (unlike `==`)
the missing sentinel does match a missing element, as pandas `isin` does;
a non-list operand raises `TypeError` ("only list-like objects allowed"). -/
def valIsin (v operand : Value) : Except FilterError Bool :=
  match operand with
  | .list vs => .ok (vs.any (fun w => Value.beq v w))
  | _ => .error .typeError

/-- The operator dispatch chain of `apply_filters` (lines 57-85 of
`contract_filters.py`), in source order: each recognized operator symbol
yields the elementwise function applied to the column; an unrecognized
symbol yields `none` (the `raise ValueError` branch). -/
def opFun (op : String) (value : Value) : Option (Value → Except FilterError Bool) :=
  if op = "isna" then some (fun v => .ok v.isNull)
  else if op = "notna" then some (fun v => .ok (!v.isNull))
  else if op = "=" then some (fun v => .ok (valEq v value))
  else if op = "!=" then some (fun v => .ok (!valEq v value))
  else if op = "in" then some (fun v => valIsin v value)
  else if op = ">=" then some (fun v => valLe value v)
  else if op = "<=" then some (fun v => valLe v value)
  else if op = ">" then some (fun v => valLt value v)
  else if op = "<" then some (fun v => valLt v value)
  else none

/-- Elementwise evaluation over a list, propagating the first error:
how a pandas vectorized operation over an object column either produces a
full boolean series or raises. -/
def mapE (f : α → Except ε β) : List α → Except ε (List β)
  | [] => .ok []
  | a :: l =>
    match f a, mapE f l with
    | .ok b, .ok bs => .ok (b :: bs)
    | .error e, _ => .error e
    | .ok _, .error e => .error e

/-- `df[column]` followed by an elementwise operation: accessing an absent
column raises `KeyError` (`columnNotFound`); otherwise the operation runs
on every row's cell in that column. -/
def seriesOp (t : Table) (column : String) (f : Value → Except FilterError Bool) :
    Except FilterError (List Bool) :=
  if column ∈ t.cols then mapE (fun r => f (getVal r column)) t.rows
  else .error (.columnNotFound column)

/-- One `mask &= df[column] <op> value` step: dispatch on the operator
symbol; a recognized operator touches the column (which may raise
`KeyError`), an unrecognized one raises before any column access, exactly
as the `else: raise ValueError(...)` arm does. -/
def applyOp (t : Table) (column op : String) (value : Value) :
    Except FilterError (List Bool) :=
  match opFun op value with
  | some f => seriesOp t column f
  | none => .error (.unsupportedOperator op)

/-- A condition of a filter specification: either a bare literal (implicit
equality) or a dict of operator → operand pairs, in insertion order. -/
inductive FilterCond where
  | value : Value → FilterCond
  | ops : List (String × Value) → FilterCond
deriving Repr

/-- A filter specification: a dict from column name to condition, in
insertion order. -/
abbrev Filters := List (String × FilterCond)

/-- Sequential `&=` accumulation with fail-fast error propagation: the
`for` loops of `apply_filters` updating the boolean mask. -/
def foldE (f : β → α → Except ε β) : β → List α → Except ε β
  | b, [] => .ok b
  | b, a :: l =>
    match f b a with
    | .ok b' => foldE f b' l
    | .error e => .error e

/-- Pointwise conjunction of the running mask with one condition's series. -/
def maskAnd (mask bs : List Bool) : List Bool :=
  List.zipWith and mask bs

/-- One `(column, condition)` entry of the filter dict: a bare value is
`df[column] == condition`; a dict of operators folds every operator's
series into the mask in order. -/
def applyCond (t : Table) (mask : List Bool) (column : String) (cond : FilterCond) :
    Except FilterError (List Bool) :=
  match cond with
  | .value v =>
    match seriesOp t column (fun w => .ok (valEq w v)) with
    | .ok bs => .ok (maskAnd mask bs)
    | .error e => .error e
  | .ops l =>
    foldE (fun m p =>
      match applyOp t column p.1 p.2 with
      | .ok bs => .ok (maskAnd m bs)
      | .error e => .error e) mask l

/-- `df.loc[mask]`: keep the rows whose mask entry is true. -/
def maskFilter (rows : List Row) (mask : List Bool) : List Row :=
  ((rows.zip mask).filter (fun p => p.2)).map (fun p => p.1)

/-- `apply_filters(df, filters)` (`contract_filters.py`, lines 32-91): start
from an all-true mask, narrow it by every condition in specification order,
and return the sub-table of rows still marked true.  Any raised exception
aborts the whole call with no partial result. -/
def apply_filters (t : Table) (filters : Filters) : Except FilterError Table :=
  match foldE (fun m p => applyCond t m p.1 p.2)
      (List.replicate t.rows.length true) filters with
  | .ok mask => .ok { cols := t.cols, rows := maskFilter t.rows mask }
  | .error e => .error e

/-- A single row satisfies one operator applied on its own to its cell in
`column`: the operator is recognized and evaluates to `true` there. -/
def opSat (column op : String) (value : Value) (r : Row) : Bool :=
  match opFun op value with
  | some f =>
    match f (getVal r column) with
    | .ok b => b
    | .error _ => false
  | none => false

/-- A single row satisfies a single `(column, condition)` pair on its own:
a bare value requires equality; a dict of operators requires every
operator application to succeed with `true` on the row's cell. -/
def rowSatisfies (column : String) (cond : FilterCond) (r : Row) : Bool :=
  match cond with
  | .value v => valEq (getVal r column) v
  | .ops l => l.all (fun p => opSat column p.1 p.2 r)

/-- Python dict `d.get(k)`: the value when bound, else `None`. -/
def dictGet (fields : List (String × Value)) (k : String) : Value :=
  match fields.lookup k with
  | some v => v
  | none => Value.null

/-- `x.get(field_name) if isinstance(x, dict) else None`: the per-cell
extraction lambda of `extract_nested_fields` (lines 36-38 of
`loaders.py`). -/
def objGet (v : Value) (field : String) : Value :=
  match v with
  | .obj fields => dictGet fields field
  | _ => Value.null

/-- Python dict assignment `d[k] = v`: an existing key keeps its position
and gets the new value; a new key is appended. -/
def updateAssoc (d : List (String × α)) (k : String) (v : α) : List (String × α) :=
  if d.any (fun p => p.1 = k) then
    d.map (fun p => if p.1 = k then (k, v) else p)
  else d ++ [(k, v)]

/-- `df[name] = series`: pandas column assignment.  An existing column is
overwritten in place, a new one is appended; each row receives the
series value at its position. -/
def setCol (t : Table) (name : String) (vals : List Value) : Table :=
  { cols := if name ∈ t.cols then t.cols else t.cols ++ [name],
    rows := (t.rows.zip vals).map (fun p => updateAssoc p.1 name p.2) }

/-- The inner loop body of `extract_nested_fields` (lines 35-38 of
`loaders.py`): `df[new_col_name] = df[nested_col].apply(lambda x: ...)`
for one `(field_name, new_column_name)` pair. -/
def extractField (nested_col : String) (df2 : Table) (fm : String × String) : Table :=
  setCol df2 fm.2 (df2.rows.map (fun r => objGet (getVal r nested_col) fm.1))

/-- The outer loop body of `extract_nested_fields` (lines 33-38): process
one `(nested_col, field_mapping)` entry, skipped when the source column is
absent. -/
def extractEntry (df : Table) (entry : String × List (String × String)) : Table :=
  if entry.1 ∈ df.cols then entry.2.foldl (extractField entry.1) df else df

/-- `extract_nested_fields(df, nested_mapping)` (`loaders.py`, lines
17-40): for each mapping entry whose source column exists, assign one new
column per `(field_name, new_column_name)` pair, each cell holding the
field of the row's nested dict, or `None` when the cell is not a dict. -/
def extract_nested_fields (t : Table)
    (nested_mapping : List (String × List (String × String))) : Table :=
  nested_mapping.foldl extractEntry t

/-- A field-path mapping value (`NestedMapping = Dict[str, Any]`): a string
names a destination column (leaf), a nested mapping recurses, and any
other payload is silently skipped by `extract_from_dict`, which has no
branch for it. -/
inductive FieldPath where
  | leaf : String → FieldPath
  | node : List (String × FieldPath) → FieldPath
  | other : FieldPath
deriving Repr

/-- The loop body of `extract_from_dict` (`loaders.py`, lines 47-70) over
the mapping entries, carrying the `result` dict: a leaf writes
`result[value] = data.get(key)`; a node recurses only when `data.get(key)`
is itself a dict and merges the nested result with `result.update(...)`. -/
def extractList (fields : List (String × Value)) :
    List (String × FieldPath) → List (String × Value) → List (String × Value)
  | [], result => result
  | (key, .leaf dest) :: rest, result =>
    extractList fields rest (updateAssoc result dest (dictGet fields key))
  | (key, .node children) :: rest, result =>
    (match dictGet fields key with
     | .obj nfields =>
       extractList fields rest
         ((extractList nfields children []).foldl
           (fun res q => updateAssoc res q.1 q.2) result)
     | _ => extractList fields rest result)
  | (_, .other) :: rest, result => extractList fields rest result

/-- `extract_from_dict(data, mapping)`: an empty dict for non-dict data,
otherwise the accumulated flat dict of extracted leaves. -/
def extract_from_dict (data : Value) (mapping : List (String × FieldPath)) :
    List (String × Value) :=
  match data with
  | .obj fields => extractList fields mapping []
  | _ => []

/-- Column names of a list of extracted record dicts in first-seen order:
the columns `pd.json_normalize` gives the extracted frame.  (The dotted
expansion `json_normalize` applies when a leaf value is itself a dict
affects only column naming, never the number of rows, and is not
modelled.) -/
def recordCols (records : List (List (String × Value))) : List String :=
  records.foldl (fun acc r =>
    r.foldl (fun acc2 p => if p.1 ∈ acc2 then acc2 else acc2 ++ [p.1]) acc) []

/-- `pd.concat([df, extracted_df], axis=1)` for positionally aligned
frames: every row gains the extracted record's bindings, and the extracted
columns are appended after the existing ones (`concat` keeps duplicate
column labels rather than overwriting). -/
def concatCols (t : Table) (records : List (List (String × Value))) : Table :=
  { cols := t.cols ++ recordCols records,
    rows := (t.rows.zip records).map (fun p => p.1 ++ p.2) }

/-- The loop body of `extract_nested_fields_n_level` (`loaders.py`, lines
80-92): skip an absent top-level column; otherwise extract a flat record
dict from each row's cell and concatenate the normalized records as new
columns. -/
def extractEntryN (df : Table) (entry : String × List (String × FieldPath)) : Table :=
  if entry.1 ∈ df.cols then
    concatCols df (df.rows.map (fun r => extract_from_dict (getVal r entry.1) entry.2))
  else df

/-- `extract_nested_fields_n_level(df, nested_mapping)` (`loaders.py`,
lines 73-94): fold `extractEntryN` over the top-level mapping entries. -/
def extract_nested_fields_n_level (t : Table)
    (nested_mapping : List (String × List (String × FieldPath))) : Table :=
  nested_mapping.foldl extractEntryN t

/-- Date placement on a day axis: `<=` over normalized timestamps, where a
missing date (`NaT`) compares `False`.  Both segment filters run after
`normalize_dates`, so the column is date-or-missing. -/
def dateLe (v w : Value) : Bool :=
  match v, w with
  | .int a, .int b => decide (a ≤ b)
  | _, _ => false

/-- `>=` over normalized timestamps, `False` on a missing date. -/
def dateGe (v w : Value) : Bool :=
  match v, w with
  | .int a, .int b => decide (a ≥ b)
  | _, _ => false

/-- `leakage_zombies(df, today)` (`contract_filters.py`, lines 15-23):
activated contracts with no renewal opportunity whose end date is at least
30 days past.  `today` is the normalized current day (the Python default
argument recomputes it). -/
def leakage_zombies (t : Table) (today : Int) : Table :=
  { cols := t.cols,
    rows := t.rows.filter (fun r =>
      dateLe (getVal r "EndDate") (.int (today - 30)) &&
      valEq (getVal r "Status") (.str "Activated") &&
      (getVal r "SBQQ__RenewalOpportunity__c").isNull) }

/-- `expiring_soon_contracts(df)` (`contract_filters.py`, lines 25-30):
activated contracts with no renewal opportunity whose end date is within
the last 30 days or in the future.  The Python reads the module-level
`today` constant, modelled here as the explicit `today` argument. -/
def expiring_soon_contracts (t : Table) (today : Int) : Table :=
  { cols := t.cols,
    rows := t.rows.filter (fun r =>
      dateGe (getVal r "EndDate") (.int (today - 30)) &&
      valEq (getVal r "Status") (.str "Activated") &&
      (getVal r "SBQQ__RenewalOpportunity__c").isNull) }

/-- One record of the narrative collaborator's decoded JSON output: the
`title` and `description` keys may each be absent (`item.get` with the
`""` default covers exactly that case). -/
structure LlmRecord where
  title : Option String
  description : Option String
deriving Repr

/-- `re.sub(r"\s*\(\d+\)$", "", raw_title).strip()` (line 129 of
`groq_overview_generator.py`): remove one trailing parenthesized count,
together with the whitespace before it, then trim both ends. -/
def stripTrailingCount (s : String) : String :=
  match s.data.reverse with
  | ')' :: rest =>
    let digits := rest.takeWhile (fun ch => ch.isDigit)
    if digits.isEmpty then s.trim
    else
      match rest.drop digits.length with
      | '(' :: rest2 => (String.mk (rest2.dropWhile (fun ch => ch.isWhitespace)).reverse).trim
      | _ => s.trim
  | _ => s.trim

/-- The `description_map` loop of `build_pie_segments` (lines 126-130):
base title (count suffix stripped) → description, later records
overwriting earlier ones under dict-assignment semantics. -/
def description_map (llm_output : List LlmRecord) : List (String × String) :=
  llm_output.foldl (fun m item =>
    updateAssoc m (stripTrailingCount (item.title.getD ""))
      (item.description.getD "")) []

/-- One pie-chart wedge record as assembled by `build_pie_segments`. -/
structure PieSegment where
  title : String
  count : Nat
  description : String
  color : String
deriving Repr

/-- The loop body of `build_pie_segments` (lines 134-145 of
`groq_overview_generator.py`) for one `(idx, label)` pair: skip a label
with no table (the `df is None` fail-safe), otherwise emit one segment
whose count is the table's row count, whose description falls back to
`""`, and whose color falls back to `"#CCCCCC"` past the palette's end. -/
def pieSegOf (llm_output : List LlmRecord) (label_to_df_map : List (String × Table))
    (pie_colors : List String) (p : Nat × String) : Option PieSegment :=
  match label_to_df_map.lookup p.2 with
  | none => none
  | some df => some
    { title := p.2,
      count := df.rows.length,
      description := ((description_map llm_output).lookup p.2).getD "",
      color := pie_colors.getD p.1 "#CCCCCC" }

/-- `build_pie_segments(llm_output, label_to_df_map, pie_labels,
pie_colors)` (`groq_overview_generator.py`, lines 102-147): walk
`enumerate(pie_labels)` in order, appending one segment per label with a
table and skipping the rest. -/
def build_pie_segments (llm_output : List LlmRecord)
    (label_to_df_map : List (String × Table))
    (pie_labels : List String) (pie_colors : List String) : List PieSegment :=
  (pie_labels.enum).filterMap (pieSegOf llm_output label_to_df_map pie_colors)

/-- Is a value a nested object (a Python dict)? -/
def Value.isObj : Value → Bool
  | .obj _ => true
  | _ => false

/-- The values of one column, row by row: what "byte-identical column"
compares. -/
def colVals (t : Table) (c : String) : List Value :=
  t.rows.map (fun r => getVal r c)

/-! ## Basic lemmas about masks and row selection -/

theorem maskFilter_cons (r : Row) (rows : List Row) (b : Bool) (mask : List Bool) :
    maskFilter (r :: rows) (b :: mask) =
      if b then r :: maskFilter rows mask else maskFilter rows mask := by
  cases b <;> simp [maskFilter]

theorem maskFilter_replicate_true (rows : List Row) :
    maskFilter rows (List.replicate rows.length true) = rows := by
  induction rows with
  | nil => rfl
  | cons r rs ih => simp [List.replicate, maskFilter_cons, ih]

/-- C4: for every table `T`, filtering with an empty filter specification
returns a table equal to `T`: the same rows in the same order, with no row
removed, added, or reordered. -/
theorem apply_filters_empty_id (t : Table) : apply_filters t [] = .ok t := by
  simp [apply_filters, foldE, maskFilter_replicate_true]

/-- C10: a row with `Status = "Activated"`, a null
`SBQQ__RenewalOpportunity__c` and `EndDate` exactly 30 days before today
is selected by `leakage_zombies` and by `expiring_soon_contracts` alike:
the `<=` and `>=` cutoffs overlap at the boundary date instead of
partitioning the activated-without-renewal rows. -/
theorem leakage_expiring_boundary_overlap (t : Table) (today : Int) (r : Row)
    (hr : r ∈ t.rows)
    (hs : getVal r "Status" = .str "Activated")
    (hn : (getVal r "SBQQ__RenewalOpportunity__c").isNull = true)
    (he : getVal r "EndDate" = .int (today - 30)) :
    r ∈ (leakage_zombies t today).rows ∧ r ∈ (expiring_soon_contracts t today).rows := by
  refine ⟨?_, ?_⟩ <;>
    simp [leakage_zombies, expiring_soon_contracts, List.mem_filter, hr, hs, hn, he,
      dateLe, dateGe, valEq, Value.beq]

/-- A contract table holding the single boundary row of the C10 witness:
activated, no renewal opportunity, end date exactly 30 days back. -/
def boundaryRow : Row :=
  [("EndDate", .int (-30)), ("Status", .str "Activated"),
   ("SBQQ__RenewalOpportunity__c", .null)]

/-- The one-row table around `boundaryRow`. -/
def boundaryTable : Table :=
  { cols := ["EndDate", "Status", "SBQQ__RenewalOpportunity__c"],
    rows := [boundaryRow] }

/-- C10 witness: with `today = 0`, the boundary row lands in both segment
filters. -/
theorem leakage_expiring_boundary_overlap_witness :
    boundaryRow ∈ (leakage_zombies boundaryTable 0).rows ∧
    boundaryRow ∈ (expiring_soon_contracts boundaryTable 0).rows :=
  leakage_expiring_boundary_overlap boundaryTable 0 boundaryRow
    (by simp [boundaryTable]) rfl rfl (by norm_num [boundaryRow, getVal])

/-- A one-row table with the single column `Amount`, used to exercise the
error paths of `apply_filters`. -/
def amountTable : Table := { cols := ["Amount"], rows := [[("Amount", .int 5)]] }

/-- C2 counterexample: a specification that does contain the unsupported
operator `~=` but whose earlier condition names the absent column `X`
raises `ColumnNotFoundError`, not `UnsupportedOperatorError`, so the
universally quantified claim fails as stated. -/
theorem unsupported_operator_preempted_cex :
    apply_filters amountTable
      [("X", .ops [("=", .int 1)]), ("Amount", .ops [("~=", .int 5)])] =
      .error (.columnNotFound "X") ∧
    apply_filters amountTable
      [("X", .ops [("=", .int 1)]), ("Amount", .ops [("~=", .int 5)])] ≠
      .error (.unsupportedOperator "~=") := by
  have h1 : apply_filters amountTable
      [("X", .ops [("=", .int 1)]), ("Amount", .ops [("~=", .int 5)])] =
      .error (.columnNotFound "X") := rfl
  exact ⟨h1, fun h => by simp [h1] at h⟩

/-- C2 (amended): when the unsupported operator is the first operator of
the first condition — in particular when it is the whole specification —
`apply_filters` fails with `UnsupportedOperatorError` naming the symbol,
for every table, and returns no partial result. -/
theorem apply_filters_unsupported_op (t : Table) (c o : String) (v : Value)
    (rest : List (String × Value)) (fs : Filters)
    (h : o ∉ ["isna", "notna", "=", "!=", "in", ">=", "<=", ">", "<"]) :
    apply_filters t ((c, .ops ((o, v) :: rest)) :: fs) =
      .error (.unsupportedOperator o) := by
  have hnone : opFun o v = none := by
    simp only [List.mem_cons, List.not_mem_nil, or_false, not_or] at h
    obtain ⟨h1, h2, h3, h4, h5, h6, h7, h8, h9⟩ := h
    simp [opFun, h1, h2, h3, h4, h5, h6, h7, h8, h9]
  simp [apply_filters, foldE, applyCond, applyOp, hnone]

/-- C2 witness: the spec's own scenario `{"Amount": {"~=": 5}}` raises
`UnsupportedOperatorError("~=")` on a concrete table. -/
theorem apply_filters_unsupported_op_witness :
    apply_filters amountTable [("Amount", .ops [("~=", .int 5)])] =
      .error (.unsupportedOperator "~=") :=
  apply_filters_unsupported_op amountTable "Amount" "~=" (.int 5) [] [] (by decide)

/-- C3 counterexample: `isna` against the absent column `X` raises
`ColumnNotFoundError` instead of matching every row (the claim would have
the call return the whole table unchanged). -/
theorem isna_missing_column_cex :
    apply_filters amountTable [("X", .ops [("isna", .bool true)])] =
      .error (.columnNotFound "X") ∧
    apply_filters amountTable [("X", .ops [("isna", .bool true)])] ≠ .ok amountTable := by
  have h1 : apply_filters amountTable [("X", .ops [("isna", .bool true)])] =
      .error (.columnNotFound "X") := rfl
  exact ⟨h1, fun h => by simp [h1] at h⟩

/-- C3 (amended): a condition naming a column absent from the table raises
`ColumnNotFoundError` for every recognized operator — `isna` and `notna`
included; a missing column is never silently treated as false (nor, for
`isna`/`notna`, as null). -/
theorem apply_filters_missing_column (t : Table) (c op : String) (v : Value)
    (hop : op ∈ ["isna", "notna", "=", "!=", "in", ">=", "<=", ">", "<"])
    (hc : c ∉ t.cols) :
    apply_filters t [(c, .ops [(op, v)])] = .error (.columnNotFound c) := by
  obtain ⟨f, hf⟩ : ∃ f, opFun op v = some f := by
    fin_cases hop <;> exact ⟨_, rfl⟩
  simp [apply_filters, foldE, applyCond, applyOp, hf, seriesOp, hc]

/-- C3 witness: `isna` on the absent column `X` of a concrete table raises
`ColumnNotFoundError("X")`. -/
theorem apply_filters_missing_column_witness :
    apply_filters amountTable [("X", .ops [("isna", .bool true)])] =
      .error (.columnNotFound "X") :=
  apply_filters_missing_column amountTable "X" "isna" (.bool true) (by decide) (by decide)

/-! ## Soundness of `apply_filters` (mask invariants) -/

theorem mapE_ok_forall2 {f : α → Except ε β} :
    ∀ {l : List α} {bs : List β}, mapE f l = .ok bs →
      List.Forall₂ (fun a b => f a = .ok b) l bs := by
  intro l
  induction l with
  | nil =>
    intro bs h
    cases h
    exact List.Forall₂.nil
  | cons a l ih =>
    intro bs h
    simp only [mapE] at h
    cases hfa : f a with
    | error e => rw [hfa] at h; cases h
    | ok b =>
      rw [hfa] at h
      cases hml : mapE f l with
      | error e => rw [hml] at h; cases h
      | ok bs2 =>
        rw [hml] at h
        cases h
        exact List.Forall₂.cons hfa (ih hml)

theorem seriesOp_ok {t : Table} {c : String} {f : Value → Except FilterError Bool}
    {bs : List Bool} (h : seriesOp t c f = .ok bs) :
    c ∈ t.cols ∧ List.Forall₂ (fun r b => f (getVal r c) = .ok b) t.rows bs := by
  unfold seriesOp at h
  split at h
  · exact ⟨by assumption, mapE_ok_forall2 h⟩
  · cases h

/-- Generic composition of two `Forall₂` chains along the middle list. -/
theorem forall2_compose {R : α → β → Prop} {S : β → γ → Prop} {T : α → γ → Prop}
    (hcomp : ∀ a b c, R a b → S b c → T a c) :
    ∀ {l1 : List α} {l2 : List β} {l3 : List γ},
      List.Forall₂ R l1 l2 → List.Forall₂ S l2 l3 → List.Forall₂ T l1 l3 := by
  intro l1 l2 l3 h1 h2
  induction h2 generalizing l1 with
  | nil => cases h1; exact List.Forall₂.nil
  | cons hbc _ ih =>
    cases h1 with
    | cons hab h1tail => exact List.Forall₂.cons (hcomp _ _ _ hab hbc) (ih h1tail)

/-- Narrowing: every row the conjoined mask keeps, the original mask kept. -/
theorem maskAnd_le : ∀ {m bs : List Bool}, m.length = bs.length →
    List.Forall₂ (fun b b2 => b2 = true → b = true) m (maskAnd m bs) := by
  intro m
  induction m with
  | nil => intro bs _; exact List.Forall₂.nil
  | cons b m ih =>
    intro bs h
    cases bs with
    | nil => simp at h
    | cons c cs =>
      refine List.Forall₂.cons (fun hb => ?_) (ih (by simpa using h))
      exact (Bool.and_eq_true _ _ |>.mp hb).1

/-- Soundness transport: a property certified by the condition's series
holds for every row the conjoined mask keeps. -/
theorem maskAnd_sound {P : Row → Prop} {rows : List Row} {bs : List Bool}
    (h : List.Forall₂ (fun r b => b = true → P r) rows bs) :
    ∀ m : List Bool, m.length = rows.length →
      List.Forall₂ (fun r b => b = true → P r) rows (maskAnd m bs) := by
  induction h with
  | nil =>
    intro m hm
    cases m with
    | nil => exact List.Forall₂.nil
    | cons b m => simp at hm
  | cons hr _ ih =>
    intro m hm
    cases m with
    | nil => simp at hm
    | cons m0 m2 =>
      refine List.Forall₂.cons (fun hb => hr ?_) (ih m2 (by simpa using hm))
      exact (Bool.and_eq_true _ _ |>.mp hb).2

theorem foldE_ops_sound {t : Table} {c : String} :
    ∀ {l : List (String × Value)} {m m2 : List Bool},
      m.length = t.rows.length →
      foldE (fun m p =>
        match applyOp t c p.1 p.2 with
        | .ok bs => .ok (maskAnd m bs)
        | .error e => .error e) m l = .ok m2 →
      m2.length = t.rows.length ∧
      List.Forall₂ (fun b b2 => b2 = true → b = true) m m2 ∧
      ∀ p ∈ l, List.Forall₂ (fun r b => b = true → opSat c p.1 p.2 r = true) t.rows m2 := by
  intro l
  induction l with
  | nil =>
    intro m m2 hm h
    cases h
    exact ⟨hm, List.forall₂_same.mpr (fun b _ => id), by simp⟩
  | cons p rest ih =>
    intro m m2 hm h
    simp only [foldE] at h
    cases hop : applyOp t c p.1 p.2 with
    | error e => rw [hop] at h; cases h
    | ok bs =>
      rw [hop] at h
      obtain ⟨f, hf, hso⟩ : ∃ f, opFun p.1 p.2 = some f ∧ seriesOp t c f = .ok bs := by
        unfold applyOp at hop
        cases hfn : opFun p.1 p.2 with
        | none => rw [hfn] at hop; cases hop
        | some f => rw [hfn] at hop; exact ⟨f, rfl, hop⟩
      obtain ⟨hcol, hfa⟩ := seriesOp_ok hso
      have hbs : bs.length = t.rows.length := hfa.length_eq.symm
      have hm1 : (maskAnd m bs).length = t.rows.length := by
        simp [maskAnd, hm, hbs]
      obtain ⟨h1, h2, h3⟩ := ih hm1 h
      refine ⟨h1, ?_, ?_⟩
      · exact forall2_compose (fun a b c hab hbc hc => hab (hbc hc))
          (maskAnd_le (by rw [hm, hbs])) h2
      · intro q hq
        rcases List.mem_cons.mp hq with hq | hq
        · subst hq
          have hsound :
              List.Forall₂ (fun r b => b = true → opSat c q.1 q.2 r = true)
                t.rows (maskAnd m bs) := by
            refine maskAnd_sound (hfa.imp ?_) m hm
            intro r b hb htrue
            simp [opSat, hf, hb, htrue]
          exact forall2_compose (fun a b c hab hbc hc => hab (hbc hc)) hsound h2
        · exact h3 q hq

theorem applyCond_sound {t : Table} {m : List Bool} {c : String} {cond : FilterCond}
    {m2 : List Bool} (hm : m.length = t.rows.length)
    (h : applyCond t m c cond = .ok m2) :
    m2.length = t.rows.length ∧
    List.Forall₂ (fun b b2 => b2 = true → b = true) m m2 ∧
    List.Forall₂ (fun r b => b = true → rowSatisfies c cond r = true) t.rows m2 := by
  cases cond with
  | value v =>
    simp only [applyCond] at h
    cases hso : seriesOp t c (fun w => .ok (valEq w v)) with
    | error e => rw [hso] at h; cases h
    | ok bs =>
      rw [hso] at h
      cases h
      obtain ⟨hcol, hfa⟩ := seriesOp_ok hso
      have hbs : bs.length = t.rows.length := hfa.length_eq.symm
      refine ⟨by simp [maskAnd, hm, hbs], maskAnd_le (by rw [hm, hbs]), ?_⟩
      refine maskAnd_sound (hfa.imp ?_) m hm
      intro r b hb htrue
      simp only [rowSatisfies]
      cases hb
      exact htrue
  | ops l =>
    obtain ⟨h1, h2, h3⟩ := foldE_ops_sound hm h
    refine ⟨h1, h2, ?_⟩
    refine List.forall₂_iff_get.mpr ⟨by rw [h1], ?_⟩
    intro i hi hi2 hb
    simp only [rowSatisfies, List.all_eq_true]
    intro p hp
    exact (List.forall₂_iff_get.mp (h3 p hp)).2 i hi hi2 hb

theorem foldE_conds_sound {t : Table} :
    ∀ {fs : Filters} {m m2 : List Bool},
      m.length = t.rows.length →
      foldE (fun m p => applyCond t m p.1 p.2) m fs = .ok m2 →
      m2.length = t.rows.length ∧
      List.Forall₂ (fun b b2 => b2 = true → b = true) m m2 ∧
      ∀ p ∈ fs,
        List.Forall₂ (fun r b => b = true → rowSatisfies p.1 p.2 r = true) t.rows m2 := by
  intro fs
  induction fs with
  | nil =>
    intro m m2 hm h
    cases h
    exact ⟨hm, List.forall₂_same.mpr (fun b _ => id), by simp⟩
  | cons p rest ih =>
    intro m m2 hm h
    simp only [foldE] at h
    cases hcond : applyCond t m p.1 p.2 with
    | error e => rw [hcond] at h; cases h
    | ok m1 =>
      rw [hcond] at h
      obtain ⟨ha, hb, hc⟩ := applyCond_sound hm hcond
      obtain ⟨h1, h2, h3⟩ := ih ha h
      refine ⟨h1, forall2_compose (fun a b c hab hbc hcc => hab (hbc hcc)) hb h2, ?_⟩
      intro q hq
      rcases List.mem_cons.mp hq with hq | hq
      · subst hq
        exact forall2_compose (fun a b c hab hbc hcc => hab (hbc hcc)) hc h2
      · exact h3 q hq

theorem mem_maskFilter {rows : List Row} :
    ∀ {mask : List Bool} {r : Row}, r ∈ maskFilter rows mask → r ∈ rows := by
  induction rows with
  | nil => intro mask r h; simp [maskFilter] at h
  | cons r0 rs ih =>
    intro mask r h
    cases mask with
    | nil => simp [maskFilter] at h
    | cons b m =>
      rw [maskFilter_cons] at h
      split at h
      · rcases List.mem_cons.mp h with h | h
        · exact h ▸ List.mem_cons_self r0 rs
        · exact List.mem_cons_of_mem r0 (ih h)
      · exact List.mem_cons_of_mem r0 (ih h)

theorem maskFilter_sound {P : Row → Prop} {rows : List Row} {mask : List Bool}
    (h : List.Forall₂ (fun r b => b = true → P r) rows mask) :
    ∀ r ∈ maskFilter rows mask, P r := by
  induction h with
  | nil => intro r h; simp [maskFilter] at h
  | @cons r0 b rs m hr _ ih =>
    intro r hmem
    rw [maskFilter_cons] at hmem
    split at hmem
    · rcases List.mem_cons.mp hmem with hmem | hmem
      · exact hmem ▸ hr (by assumption)
      · exact ih r hmem
    · exact ih r hmem

/-- C1: whenever `apply_filters` succeeds, every returned row is a row of
the input table (no row is fabricated) and satisfies every
`(column, condition)` pair of the specification when that condition is
evaluated on its own against the row. -/
theorem apply_filters_sound (t : Table) (fs : Filters) (t2 : Table)
    (h : apply_filters t fs = .ok t2) :
    (∀ r ∈ t2.rows, r ∈ t.rows) ∧
    (∀ r ∈ t2.rows, ∀ p ∈ fs, rowSatisfies p.1 p.2 r = true) := by
  unfold apply_filters at h
  cases hfold : foldE (fun m p => applyCond t m p.1 p.2)
      (List.replicate t.rows.length true) fs with
  | error e => rw [hfold] at h; cases h
  | ok mask =>
    rw [hfold] at h
    cases h
    obtain ⟨hlen, hle, hsat⟩ := foldE_conds_sound (by simp) hfold
    constructor
    · intro r hr
      exact mem_maskFilter hr
    · intro r hr p hp
      exact maskFilter_sound (hsat p hp) r hr

/-- The spec's 5-row scenario table: `Status` and `RenewalOpportunity`. -/
def statusTable : Table :=
  { cols := ["Status", "RenewalOpportunity"],
    rows := [
      [("Status", .str "Activated"), ("RenewalOpportunity", .null)],
      [("Status", .str "Activated"), ("RenewalOpportunity", .str "X")],
      [("Status", .str "Draft"), ("RenewalOpportunity", .null)],
      [("Status", .str "Activated"), ("RenewalOpportunity", .null)],
      [("Status", .str "Activated"), ("RenewalOpportunity", .str "Y")]] }

/-- The spec's scenario specification: activated rows with no renewal. -/
def statusFilters : Filters :=
  [("Status", .value (.str "Activated")),
   ("RenewalOpportunity", .ops [("isna", .bool true)])]

/-- The sub-table `apply_filters` returns on the scenario: rows 1 and 4. -/
def statusResult : Table :=
  { cols := ["Status", "RenewalOpportunity"],
    rows := [
      [("Status", .str "Activated"), ("RenewalOpportunity", .null)],
      [("Status", .str "Activated"), ("RenewalOpportunity", .null)]] }

/-- C1 witness: on the spec's concrete scenario the call succeeds and the
soundness theorem applies, so each selected row comes from the input and
satisfies both conditions independently. -/
theorem apply_filters_sound_witness :
    (∀ r ∈ statusResult.rows, r ∈ statusTable.rows) ∧
    (∀ r ∈ statusResult.rows, ∀ p ∈ statusFilters, rowSatisfies p.1 p.2 r = true) :=
  apply_filters_sound statusTable statusFilters statusResult rfl

/-! ## The isna / notna partition -/

theorem mapE_pure (g : α → β) (l : List α) :
    mapE (fun a => (.ok (g a) : Except ε β)) l = .ok (l.map g) := by
  induction l with
  | nil => rfl
  | cons a l ih => simp [mapE, ih]

theorem maskAnd_replicate_true (l : List Bool) :
    maskAnd (List.replicate l.length true) l = l := by
  induction l with
  | nil => rfl
  | cons b l ih => simpa [maskAnd, List.replicate] using ih

/-- Closed form of a one-condition `isna` filter on a present column. -/
theorem apply_filters_single_isna (t : Table) (c : String) (v : Value) (hc : c ∈ t.cols) :
    apply_filters t [(c, .ops [("isna", v)])] =
      .ok { cols := t.cols,
            rows := maskFilter t.rows (t.rows.map (fun r => (getVal r c).isNull)) } := by
  have h1 : mapE (fun r => (.ok ((getVal r c).isNull) : Except FilterError Bool)) t.rows =
      .ok (t.rows.map (fun r => (getVal r c).isNull)) := mapE_pure _ _
  have h2 : maskAnd (List.replicate t.rows.length true)
      (t.rows.map (fun r => (getVal r c).isNull)) =
      t.rows.map (fun r => (getVal r c).isNull) := by
    have := maskAnd_replicate_true (t.rows.map (fun r => (getVal r c).isNull))
    simpa using this
  simp [apply_filters, foldE, applyCond, applyOp, opFun, seriesOp, hc, h1, h2]

/-- Closed form of a one-condition `notna` filter on a present column. -/
theorem apply_filters_single_notna (t : Table) (c : String) (v : Value) (hc : c ∈ t.cols) :
    apply_filters t [(c, .ops [("notna", v)])] =
      .ok { cols := t.cols,
            rows := maskFilter t.rows (t.rows.map (fun r => !(getVal r c).isNull)) } := by
  have h1 : mapE (fun r => (.ok (!(getVal r c).isNull) : Except FilterError Bool)) t.rows =
      .ok (t.rows.map (fun r => !(getVal r c).isNull)) := mapE_pure _ _
  have h2 : maskAnd (List.replicate t.rows.length true)
      (t.rows.map (fun r => !(getVal r c).isNull)) =
      t.rows.map (fun r => !(getVal r c).isNull) := by
    have := maskAnd_replicate_true (t.rows.map (fun r => !(getVal r c).isNull))
    simpa using this
  simp [apply_filters, foldE, applyCond, applyOp, opFun, seriesOp, hc, h1, h2]

theorem mem_maskFilter_map {g : Row → Bool} :
    ∀ {rows : List Row} {r : Row}, r ∈ maskFilter rows (rows.map g) → g r = true := by
  intro rows
  induction rows with
  | nil => intro r h; simp [maskFilter] at h
  | cons r0 rs ih =>
    intro r h
    rw [List.map_cons, maskFilter_cons] at h
    split at h
    · rcases List.mem_cons.mp h with h | h
      · rw [h]; assumption
      · exact ih h
    · exact ih h

theorem mem_maskFilter_map_of_mem {g : Row → Bool} :
    ∀ {rows : List Row} {r : Row}, r ∈ rows → g r = true →
      r ∈ maskFilter rows (rows.map g) := by
  intro rows
  induction rows with
  | nil => intro r h; simp at h
  | cons r0 rs ih =>
    intro r h hg
    rw [List.map_cons, maskFilter_cons]
    rcases List.mem_cons.mp h with h | h
    · subst h
      rw [hg]
      simp
    · split
      · exact List.mem_cons_of_mem r0 (ih h hg)
      · exact ih h hg

theorem maskFilter_map_length_add (g : Row → Bool) :
    ∀ rows : List Row,
      (maskFilter rows (rows.map g)).length +
        (maskFilter rows (rows.map (fun r => !g r))).length = rows.length := by
  intro rows
  induction rows with
  | nil => rfl
  | cons r0 rs ih =>
    cases hg : g r0 <;> simp [List.map_cons, maskFilter_cons, hg] <;> omega

/-- C8: for every column present in the table, the `isna` and `notna`
one-condition filters both succeed and split the table into two disjoint
subsets that together contain every row and whose sizes sum to `len(T)`;
the boolean operands play no role. -/
theorem isna_notna_partition (t : Table) (c : String) (vA vB : Value) (hc : c ∈ t.cols) :
    ∃ tA tB,
      apply_filters t [(c, .ops [("isna", vA)])] = .ok tA ∧
      apply_filters t [(c, .ops [("notna", vB)])] = .ok tB ∧
      (∀ r : Row, ¬(r ∈ tA.rows ∧ r ∈ tB.rows)) ∧
      (∀ r ∈ t.rows, r ∈ tA.rows ∨ r ∈ tB.rows) ∧
      tA.rows.length + tB.rows.length = t.rows.length := by
  refine ⟨_, _, apply_filters_single_isna t c vA hc,
    apply_filters_single_notna t c vB hc, ?_, ?_, ?_⟩
  · rintro r ⟨hA, hB⟩
    have h1 := mem_maskFilter_map hA
    have h2 := mem_maskFilter_map hB
    rw [h1] at h2
    simp at h2
  · intro r hr
    cases hg : (getVal r c).isNull
    · right
      exact mem_maskFilter_map_of_mem hr (by rw [hg]; rfl)
    · left
      exact mem_maskFilter_map_of_mem hr hg
  · exact maskFilter_map_length_add (fun r => (getVal r c).isNull) t.rows

/-- C8 witness: the partition on the scenario table's
`RenewalOpportunity` column. -/
theorem isna_notna_partition_witness :
    ∃ tA tB,
      apply_filters statusTable [("RenewalOpportunity", .ops [("isna", .bool true)])] = .ok tA ∧
      apply_filters statusTable [("RenewalOpportunity", .ops [("notna", .bool true)])] = .ok tB ∧
      (∀ r : Row, ¬(r ∈ tA.rows ∧ r ∈ tB.rows)) ∧
      (∀ r ∈ statusTable.rows, r ∈ tA.rows ∨ r ∈ tB.rows) ∧
      tA.rows.length + tB.rows.length = statusTable.rows.length :=
  isna_notna_partition statusTable "RenewalOpportunity" (.bool true) (.bool true)
    (by simp [statusTable])

/-! ## Row-count preservation of the flatteners -/

theorem setCol_rows_length (t : Table) (n : String) (vals : List Value)
    (h : vals.length = t.rows.length) :
    (setCol t n vals).rows.length = t.rows.length := by
  simp [setCol, h]

theorem extractField_rows_length (nc : String) (t : Table) (fm : String × String) :
    (extractField nc t fm).rows.length = t.rows.length := by
  apply setCol_rows_length
  simp

theorem foldl_extractField_length (nc : String) :
    ∀ (l : List (String × String)) (t : Table),
      (l.foldl (extractField nc) t).rows.length = t.rows.length := by
  intro l
  induction l with
  | nil => intro t; rfl
  | cons fm rest ih =>
    intro t
    rw [List.foldl_cons, ih, extractField_rows_length]

theorem extractEntry_rows_length (t : Table) (e : String × List (String × String)) :
    (extractEntry t e).rows.length = t.rows.length := by
  unfold extractEntry
  split
  · exact foldl_extractField_length e.1 e.2 t
  · rfl

theorem extract_nested_fields_length :
    ∀ (m : List (String × List (String × String))) (t : Table),
      (extract_nested_fields t m).rows.length = t.rows.length := by
  intro m
  induction m with
  | nil => intro t; rfl
  | cons e rest ih =>
    intro t
    unfold extract_nested_fields at *
    rw [List.foldl_cons, ih, extractEntry_rows_length]

theorem concatCols_rows_length (t : Table) (records : List (List (String × Value)))
    (h : records.length = t.rows.length) :
    (concatCols t records).rows.length = t.rows.length := by
  simp [concatCols, h]

theorem extractEntryN_rows_length (t : Table) (e : String × List (String × FieldPath)) :
    (extractEntryN t e).rows.length = t.rows.length := by
  unfold extractEntryN
  split
  · apply concatCols_rows_length
    simp
  · rfl

theorem extract_nested_fields_n_level_length :
    ∀ (nm : List (String × List (String × FieldPath))) (t : Table),
      (extract_nested_fields_n_level t nm).rows.length = t.rows.length := by
  intro nm
  induction nm with
  | nil => intro t; rfl
  | cons e rest ih =>
    intro t
    unfold extract_nested_fields_n_level at *
    rw [List.foldl_cons, ih, extractEntryN_rows_length]

/-- C5: both flatteners return a table with exactly as many rows as the
input for every field-path mapping — no row dropped, no row added.  (The
embedding is pure, so the input table is left untouched by construction,
matching the `df.copy()` discipline of the source.) -/
theorem flatten_preserves_row_count (t : Table)
    (m : List (String × List (String × String)))
    (nm : List (String × List (String × FieldPath))) :
    (extract_nested_fields t m).rows.length = t.rows.length ∧
    (extract_nested_fields_n_level t nm).rows.length = t.rows.length :=
  ⟨extract_nested_fields_length m t, extract_nested_fields_n_level_length nm t⟩

/-! ## Reading back assigned columns -/

theorem lookup_map_update {k : String} {v : Value} :
    ∀ {r : Row}, r.any (fun p => p.1 = k) = true →
      (r.map (fun p => if p.1 = k then (k, v) else p)).lookup k = some v := by
  intro r
  induction r with
  | nil => intro h; simp at h
  | cons p rs ih =>
    obtain ⟨pk, pv⟩ := p
    intro h
    by_cases hp : pk = k
    · subst hp
      rw [List.map_cons, if_pos rfl]
      simp [List.lookup]
    · have hrs : rs.any (fun p => p.1 = k) = true := by simpa [hp] using h
      have hne : (k == pk) = false := beq_eq_false_iff_ne.mpr (fun he => hp he.symm)
      rw [List.map_cons, if_neg hp]
      simpa [List.lookup, hne] using ih hrs

theorem lookup_append_self {k : String} {v : Value} :
    ∀ {r : Row}, r.any (fun p => p.1 = k) = false →
      (r ++ [(k, v)]).lookup k = some v := by
  intro r
  induction r with
  | nil => intro h; simp [List.lookup]
  | cons p rs ih =>
    obtain ⟨pk, pv⟩ := p
    intro h
    simp only [List.any_cons, Bool.or_eq_false_iff, decide_eq_false_iff_not] at h
    have hne : (k == pk) = false := beq_eq_false_iff_ne.mpr (fun he => h.1 he.symm)
    rw [List.cons_append]
    simpa [List.lookup, hne] using ih (by simpa using h.2)

/-- A freshly assigned key reads back the assigned value. -/
theorem getVal_updateAssoc_self (r : Row) (k : String) (v : Value) :
    getVal (updateAssoc r k v) k = v := by
  unfold updateAssoc getVal
  by_cases h : r.any (fun p => p.1 = k) = true
  · rw [if_pos h, lookup_map_update h]
  · rw [if_neg h, lookup_append_self (Bool.eq_false_iff.mpr h)]

theorem lookup_map_update_ne {k c : String} {v : Value} (hkc : k ≠ c) :
    ∀ r : Row, (r.map (fun p => if p.1 = k then (k, v) else p)).lookup c = r.lookup c := by
  intro r
  induction r with
  | nil => rfl
  | cons p rs ih =>
    obtain ⟨pk, pv⟩ := p
    by_cases hp : pk = k
    · subst hp
      have hne : (c == pk) = false := beq_eq_false_iff_ne.mpr (fun he => hkc he.symm)
      rw [List.map_cons, if_pos rfl]
      simpa [List.lookup, hne] using ih
    · rw [List.map_cons, if_neg hp]
      cases hcp : (c == pk) with
      | true => simp [List.lookup, hcp]
      | false => simpa [List.lookup, hcp] using ih

theorem lookup_append_ne {k c : String} {v : Value} (hkc : k ≠ c) :
    ∀ r : Row, (r ++ [(k, v)]).lookup c = r.lookup c := by
  intro r
  induction r with
  | nil =>
    have hne : (c == k) = false := beq_eq_false_iff_ne.mpr (fun he => hkc he.symm)
    simp [List.lookup, hne]
  | cons p rs ih =>
    obtain ⟨pk, pv⟩ := p
    rw [List.cons_append]
    cases hcp : (c == pk) with
    | true => simp [List.lookup, hcp]
    | false => simpa [List.lookup, hcp] using ih

/-- Assigning one column leaves every other column's cells unchanged. -/
theorem getVal_updateAssoc_ne (r : Row) (k c : String) (v : Value) (h : k ≠ c) :
    getVal (updateAssoc r k v) c = getVal r c := by
  unfold updateAssoc getVal
  by_cases hany : r.any (fun p => p.1 = k) = true
  · rw [if_pos hany, lookup_map_update_ne h]
  · rw [if_neg hany, lookup_append_ne h]

theorem zip_map_self (g : α → β) : ∀ l : List α, l.zip (l.map g) = l.map (fun a => (a, g a)) := by
  intro l
  induction l with
  | nil => rfl
  | cons a l ih => simp [ih]

theorem objGet_of_not_obj {v : Value} (f : String) (h : v.isObj = false) :
    objGet v f = .null := by
  cases v <;> first
    | rfl
    | simp [Value.isObj] at h

/-- C6: a row whose nested cell is not a dict (null or absent included)
flattens to a null destination cell, with no error: the `Forall₂` pairs
each input row with its output row under the single-path mapping
`{nc: {fn: dest}}`; and `extract_from_dict` extracts nothing (so every
destination reads back as missing) when its data is not a dict — the
guard covering null intermediate segments at every level. -/
theorem flatten_missing_nested_null (t : Table) (nc fn dest : String) (hc : nc ∈ t.cols) :
    List.Forall₂ (fun r r2 => (getVal r nc).isObj = false → getVal r2 dest = Value.null)
      t.rows (extract_nested_fields t [(nc, [(fn, dest)])]).rows ∧
    ∀ (data : Value) (mp : List (String × FieldPath)),
      data.isObj = false → extract_from_dict data mp = [] := by
  constructor
  · have hred : (extract_nested_fields t [(nc, [(fn, dest)])]).rows =
        t.rows.map (fun r => updateAssoc r dest (objGet (getVal r nc) fn)) := by
      simp only [extract_nested_fields, List.foldl_cons, List.foldl_nil, extractEntry,
        hc, if_pos, extractField, setCol]
      rw [zip_map_self, List.map_map]
      rfl
    rw [hred, List.forall₂_map_right_iff]
    refine List.forall₂_same.mpr ?_
    intro r _ hobj
    rw [getVal_updateAssoc_self]
    exact objGet_of_not_obj fn hobj
  · intro data mp hobj
    cases data <;> first
      | rfl
      | simp [Value.isObj] at hobj

/-- A two-row CRM extract: one row with a nested `Account` dict, one with
a null `Account`. -/
def accountTable : Table :=
  { cols := ["Id", "Account"],
    rows := [
      [("Id", .int 1), ("Account", .obj [("Name", .str "Acme")])],
      [("Id", .int 2), ("Account", .null)]] }

/-- C6 witness: the spec scenario `{"Account": {"Name": "Account Name"}}`
on a table whose second row has a null `Account`. -/
theorem flatten_missing_nested_null_witness :
    List.Forall₂
      (fun r r2 => (getVal r "Account").isObj = false →
        getVal r2 "Account Name" = Value.null)
      accountTable.rows
      (extract_nested_fields accountTable [("Account", [("Name", "Account Name")])]).rows ∧
    ∀ (data : Value) (mp : List (String × FieldPath)),
      data.isObj = false → extract_from_dict data mp = [] :=
  flatten_missing_nested_null accountTable "Account" "Name" "Account Name"
    (by simp [accountTable])

/-! ## Columns the flattener does not target -/

theorem colVals_setCol_ne (t : Table) (n : String) (vals : List Value) (c : String)
    (hne : n ≠ c) (hlen : vals.length = t.rows.length) :
    colVals (setCol t n vals) c = colVals t c := by
  unfold colVals setCol
  rw [List.map_map]
  have h1 : ∀ p ∈ t.rows.zip vals,
      ((fun r => getVal r c) ∘ (fun p : Row × Value => updateAssoc p.1 n p.2)) p =
        (fun p : Row × Value => getVal p.1 c) p := by
    intro p _
    exact getVal_updateAssoc_ne p.1 n c p.2 hne
  rw [List.map_congr_left h1]
  have h2 : (t.rows.zip vals).map (fun p : Row × Value => getVal p.1 c) =
      ((t.rows.zip vals).map Prod.fst).map (fun r => getVal r c) := by
    rw [List.map_map]
    rfl
  rw [h2, List.map_fst_zip _ _ (le_of_eq hlen.symm)]

theorem colVals_extractField (nc : String) (t : Table) (fm : String × String) (c : String)
    (hne : fm.2 ≠ c) :
    colVals (extractField nc t fm) c = colVals t c :=
  colVals_setCol_ne t fm.2 _ c hne (by simp)

theorem colVals_foldl_extractField (nc c : String) :
    ∀ (l : List (String × String)) (t : Table), (∀ fm ∈ l, fm.2 ≠ c) →
      colVals (l.foldl (extractField nc) t) c = colVals t c := by
  intro l
  induction l with
  | nil => intro t _; rfl
  | cons fm rest ih =>
    intro t hl
    rw [List.foldl_cons, ih _ (fun q hq => hl q (List.mem_cons_of_mem fm hq)),
      colVals_extractField nc t fm c (hl fm (List.mem_cons_self fm rest))]

theorem colVals_extractEntry (t : Table) (e : String × List (String × String)) (c : String)
    (h : ∀ fm ∈ e.2, fm.2 ≠ c) :
    colVals (extractEntry t e) c = colVals t c := by
  unfold extractEntry
  split
  · exact colVals_foldl_extractField e.1 c e.2 t h
  · rfl

/-- C7 (amended): every column that is neither a source column nor a
destination column of the field-path mapping keeps exactly the same
values, row for row, through `extract_nested_fields`.  (A destination
name colliding with an existing column overwrites it, which is what the
counterexample exhibits.) -/
theorem flatten_preserves_nontarget_columns :
    ∀ (m : List (String × List (String × String))) (t : Table) (c : String),
      c ∉ m.map Prod.fst →
      c ∉ m.flatMap (fun e => e.2.map Prod.snd) →
      colVals (extract_nested_fields t m) c = colVals t c := by
  intro m
  induction m with
  | nil => intro t c _ _; rfl
  | cons e rest ih =>
    intro t c hsrc hdest
    have hd : c ∉ e.2.map Prod.snd ∧ c ∉ rest.flatMap (fun e => e.2.map Prod.snd) := by
      constructor <;> intro hmem <;>
        exact hdest (by simp [List.flatMap_cons, List.mem_append, hmem])
    have hs : c ∉ rest.map Prod.fst := by
      simp only [List.map_cons, List.mem_cons, not_or] at hsrc
      exact hsrc.2
    unfold extract_nested_fields at *
    rw [List.foldl_cons, ih (extractEntry t e) c hs hd.2]
    refine colVals_extractEntry t e c ?_
    intro fm hfm he
    exact hd.1 (List.mem_map.mpr ⟨fm, hfm, he⟩)

/-- A table where the flattener's destination name collides with the
existing non-source column `B`. -/
def overwriteTable : Table :=
  { cols := ["A", "B"],
    rows := [[("A", .obj [("Name", .str "x")]), ("B", .str "keep")]] }

/-- C7 counterexample: with mapping `{"A": {"Name": "B"}}`, column `B` is
not a source column of the mapping, yet its values change from
`["keep"]` to `["x"]` — the destination assignment overwrites it. -/
theorem flatten_overwrites_nontarget_cex :
    "B" ∉ ([("A", [("Name", "B")])].map Prod.fst) ∧
    colVals overwriteTable "B" = [.str "keep"] ∧
    colVals (extract_nested_fields overwriteTable [("A", [("Name", "B")])]) "B" =
      [.str "x"] :=
  ⟨by decide, rfl, rfl⟩

/-- C7 witness: with a fresh destination name `C`, the untargeted column
`B` is preserved byte for byte. -/
theorem flatten_preserves_nontarget_columns_witness :
    colVals (extract_nested_fields overwriteTable [("A", [("Name", "C")])]) "B" =
      colVals overwriteTable "B" :=
  flatten_preserves_nontarget_columns [("A", [("Name", "C")])] overwriteTable "B"
    (by decide) (by decide)

/-! ## Shape of the assembled pie segments -/

theorem pieSegOf_shape {llm : List LlmRecord} {lmap : List (String × Table)}
    {colors : List String} {p : Nat × String} {s : PieSegment}
    (h : pieSegOf llm lmap colors p = some s) :
    s.title = p.2 ∧
    ∃ df, lmap.lookup s.title = some df ∧ s.count = df.rows.length ∧
      s.description = ((description_map llm).lookup s.title).getD "" := by
  unfold pieSegOf at h
  cases hlk : lmap.lookup p.2 with
  | none => rw [hlk] at h; cases h
  | some df =>
    rw [hlk] at h
    cases h
    exact ⟨rfl, df, hlk, rfl, rfl⟩

theorem build_mem_shape {llm : List LlmRecord} {lmap : List (String × Table)}
    {labels colors : List String} {s : PieSegment}
    (hs : s ∈ build_pie_segments llm lmap labels colors) :
    ∃ df, lmap.lookup s.title = some df ∧ s.count = df.rows.length ∧
      s.description = ((description_map llm).lookup s.title).getD "" := by
  unfold build_pie_segments at hs
  rw [List.mem_filterMap] at hs
  obtain ⟨p, _, hf⟩ := hs
  exact (pieSegOf_shape hf).2

theorem build_filter_not_mem (llm : List LlmRecord) (lmap : List (String × Table))
    (colors : List String) (l : String) :
    ∀ (labels : List String) (n : Nat), l ∉ labels →
      ((labels.enumFrom n).filterMap (pieSegOf llm lmap colors)).filter
        (fun s => s.title == l) = [] := by
  intro labels
  induction labels with
  | nil => intro n _; rfl
  | cons lab rest ih =>
    intro n hl
    have hlab : lab ≠ l := fun he => hl (he ▸ List.mem_cons_self lab rest)
    have hrest : l ∉ rest := fun hm => hl (List.mem_cons_of_mem lab hm)
    show (((n, lab) :: rest.enumFrom (n + 1)).filterMap
        (pieSegOf llm lmap colors)).filter (fun s => s.title == l) = []
    rw [List.filterMap_cons]
    cases hseg : pieSegOf llm lmap colors (n, lab) with
    | none => exact ih (n + 1) hrest
    | some s =>
      have ht : s.title = lab := (pieSegOf_shape hseg).1
      rw [List.filter_cons]
      have hb : (s.title == l) = false := by
        rw [ht]
        exact beq_eq_false_iff_ne.mpr hlab
      rw [hb]
      simpa using ih (n + 1) hrest

theorem build_filter_count (llm : List LlmRecord) (lmap : List (String × Table))
    (colors : List String) (l : String) :
    ∀ (labels : List String) (n : Nat), labels.Nodup → l ∈ labels →
      (lmap.lookup l).isSome →
      (((labels.enumFrom n).filterMap (pieSegOf llm lmap colors)).filter
        (fun s => s.title == l)).length = 1 := by
  intro labels
  induction labels with
  | nil => intro n _ hmem; simp at hmem
  | cons lab rest ih =>
    intro n hnd hmem hsome
    have hnd2 := List.nodup_cons.mp hnd
    show ((((n, lab) :: rest.enumFrom (n + 1)).filterMap
        (pieSegOf llm lmap colors)).filter (fun s => s.title == l)).length = 1
    rw [List.filterMap_cons]
    rcases List.mem_cons.mp hmem with he | hm
    · subst he
      obtain ⟨df, hdf⟩ := Option.isSome_iff_exists.mp hsome
      have hseg : pieSegOf llm lmap colors (n, l) =
          some { title := l, count := df.rows.length,
                 description := ((description_map llm).lookup l).getD "",
                 color := colors.getD n "#CCCCCC" } := by
        unfold pieSegOf
        rw [hdf]
      rw [hseg, List.filter_cons]
      simp [build_filter_not_mem llm lmap colors l rest (n + 1) hnd2.1]
    · have hlab : lab ≠ l := fun he => hnd2.1 (he ▸ hm)
      cases hseg : pieSegOf llm lmap colors (n, lab) with
      | none => exact ih (n + 1) hnd2.2 hm hsome
      | some s =>
        have ht : s.title = lab := (pieSegOf_shape hseg).1
        rw [List.filter_cons]
        have hb : (s.title == l) = false := by
          rw [ht]
          exact beq_eq_false_iff_ne.mpr hlab
        rw [hb]
        simpa using ih (n + 1) hnd2.2 hm hsome

/-- C9: `build_pie_segments` is total on any decoded collaborator output,
including records with no title or description; when the chart labels are
distinct, every label present in both `pie_labels` and `label_to_df_map`
yields exactly one segment; a segment whose label has no record in the
description map gets the empty-string description; and every segment's
count is the row count of its label's table. -/
theorem build_pie_segments_spec (llm : List LlmRecord) (lmap : List (String × Table))
    (labels colors : List String) (hnd : labels.Nodup) :
    (∀ s ∈ build_pie_segments llm lmap labels colors,
        (description_map llm).lookup s.title = none → s.description = "") ∧
    (∀ l ∈ labels, ∀ df : Table, lmap.lookup l = some df →
        ((build_pie_segments llm lmap labels colors).filter
            (fun s => s.title == l)).length = 1 ∧
        ∀ s ∈ build_pie_segments llm lmap labels colors, s.title = l →
          s.count = df.rows.length) := by
  constructor
  · intro s hs hnone
    obtain ⟨df, _, _, hdesc⟩ := build_mem_shape hs
    rw [hdesc, hnone]
    rfl
  · intro l hl df hdf
    constructor
    · have h := build_filter_count llm lmap colors l labels 0 hnd hl (by rw [hdf]; rfl)
      simpa [build_pie_segments, List.enum] using h
    · intro s hs ht
      obtain ⟨df2, hdf2, hcnt, _⟩ := build_mem_shape hs
      rw [ht, hdf] at hdf2
      rw [hcnt, ← Option.some.inj hdf2]

/-- Collaborator output where the second record lacks both a title and a
description. -/
def demoLlm : List LlmRecord :=
  [{ title := some "Active (2)", description := some "Still under contract." },
   { title := none, description := none }]

/-- A label-to-table map over previously defined concrete tables. -/
def demoMap : List (String × Table) :=
  [("Active", statusTable), ("Zombie", amountTable)]

/-- C9 witness: with distinct labels (one of which has no table) and a
partially malformed collaborator output, the assembly obeys the spec. -/
theorem build_pie_segments_spec_witness :
    (∀ s ∈ build_pie_segments demoLlm demoMap ["Active", "Zombie", "Ghost"] ["#111111"],
        (description_map demoLlm).lookup s.title = none → s.description = "") ∧
    (∀ l ∈ ["Active", "Zombie", "Ghost"], ∀ df : Table, demoMap.lookup l = some df →
        ((build_pie_segments demoLlm demoMap ["Active", "Zombie", "Ghost"]
            ["#111111"]).filter (fun s => s.title == l)).length = 1 ∧
        ∀ s ∈ build_pie_segments demoLlm demoMap ["Active", "Zombie", "Ghost"] ["#111111"],
          s.title = l → s.count = df.rows.length) :=
  build_pie_segments_spec demoLlm demoMap ["Active", "Zombie", "Ghost"] ["#111111"]
    (by decide)
